import Mathlib

/-!
# Verification of the MicroStock metadata batch generator

A shallow embedding, in Lean 4, of the orchestration and post-processing
code of the `pro-metadata1` repository (a TypeScript/React application that
batch-generates stock-photo metadata via AI providers), together with
theorems settling the frozen claims about its specification.

The embedding follows the TypeScript source:
* `src/types.ts`                — data model,
* `src/unnamed/part_000`        — platform configurations (constants),
* `src/services/geminiService.ts`, `src/services/mistralService.ts`,
  `src/services/fileService.ts` — provider adapters (deterministic
  post-processing and retry wrappers),
* `src/App.tsx`                 — batch orchestrator, single-item
  regeneration, per-field metadata editing, bulk edit and undo history.

JavaScript string operations are modelled on the underlying character list
(`String.data`): `substring`, `lastIndexOf`, `toLowerCase`, `trim`,
`split`, `includes`.  Network calls are modelled as oracles
(`Platform → Except String Metadata`, or `Nat → Except ApiError α` for the
retry wrapper), and `Math.random()` jitter as an arbitrary function
bounded by the modelled range.
-/

deriving instance DecidableEq for Except

namespace ProMetadata

/-! ## JavaScript string primitives -/

/-- JS `s.length` (character count; the embedding treats JS strings as
sequences of characters). -/
def jsLen (s : String) : Nat := s.data.length

/-- JS `s.substring(0, e)`: a negative end index clamps to `0`, an index
past the end clamps to the length. -/
def jsSubstring0 (s : String) (e : Int) : String := ⟨s.data.take e.toNat⟩

/-- Last index of `' '` in a character list (`none` when absent). -/
def lastSpaceIdx : List Char → Option Nat
  | [] => none
  | c :: cs =>
    match lastSpaceIdx cs with
    | some j => some (j + 1)
    | none => if c = ' ' then some 0 else none

/-- JS `s.lastIndexOf(" ")`: the last index of a space, `-1` when absent. -/
def jsLastIndexOfSpace (s : String) : Int :=
  match lastSpaceIdx s.data with
  | some j => (j : Int)
  | none => -1

/-- JS `s.toLowerCase()` (the sources only rely on ASCII case folding). -/
def jsToLower (s : String) : String := ⟨s.data.map Char.toLower⟩

/-- JS `s.trim()`: strip leading and trailing whitespace. -/
def jsTrim (s : String) : String :=
  ⟨((s.data.dropWhile Char.isWhitespace).reverse.dropWhile Char.isWhitespace).reverse⟩

/-- Does the first character list lead (start) the second? -/
def leadsWith : List Char → List Char → Bool
  | [], _ => true
  | _ :: _, [] => false
  | a :: as, b :: bs => a = b && leadsWith as bs

/-- Does `sub` occur contiguously inside the second list? -/
def occursIn (sub : List Char) : List Char → Bool
  | [] => leadsWith sub []
  | l@(_ :: rest) => leadsWith sub l || occursIn sub rest

/-- JS `s.includes(sub)`. -/
def jsIncludes (s sub : String) : Bool := occursIn sub.data s.data

/-- Split a character list at every character satisfying `p`; consecutive
separators yield empty pieces, exactly as JS single-character-class
`split` does. -/
def splitChAux (p : Char → Bool) : List Char → List Char → List (List Char)
  | [], acc => [acc.reverse]
  | c :: cs, acc =>
    if p c then acc.reverse :: splitChAux p cs [] else splitChAux p cs (c :: acc)

/-- JS `s.split(sep)` for a single-character separator class (for example
`split(',')` or `split(/[,;\n]/)`). -/
def jsSplit (p : Char → Bool) (s : String) : List String :=
  (splitChAux p s.data []).map (fun l => ⟨l⟩)

/-- JS `s.split(/\s+/)` applied to an already-trimmed string: split on
maximal whitespace runs.  (On a trimmed string the JS regex split produces
no empty pieces, which is what dropping the empty pieces of the
single-character split yields.) -/
def jsSplitWs (s : String) : List String :=
  (jsSplit Char.isWhitespace s).filter (fun w => w ≠ "")

/-- First-occurrence deduplication, as JS `[...new Set(xs)]`. -/
def dedupFirstAux (seen : List String) : List String → List String
  | [] => []
  | x :: xs =>
    if x ∈ seen then dedupFirstAux seen xs else x :: dedupFirstAux (x :: seen) xs

/-- JS `[...new Set(xs)]`: drop later duplicates, keep first occurrences. -/
def dedupFirst (l : List String) : List String := dedupFirstAux [] l

/-! ## Data model (`src/types.ts`, `src/unnamed/part_000`) -/

/-- `export type Platform = 'adobe' | 'shutterstock' | 'freepik'`. -/
inductive Platform where
  | adobe
  | shutterstock
  | freepik
deriving DecidableEq, Repr

/-- `PlatformConfig` (the opaque `systemPrompt` template is omitted: it is
prompt text, not used by any post-processing or orchestration step). -/
structure PlatformConfig where
  name : String
  titleMin : Nat
  titleMax : Nat
  descMax : Nat
  keywordsMin : Nat
  keywordsMax : Nat
deriving DecidableEq, Repr

/-- `PLATFORM_CONFIGS` (from the constants module, `src/unnamed/part_000`). -/
def PLATFORM_CONFIGS : Platform → PlatformConfig
  | .adobe =>
    { name := "Adobe Stock", titleMax := 190, titleMin := 150, descMax := 200,
      keywordsMin := 30, keywordsMax := 49 }
  | .shutterstock =>
    { name := "Shutterstock", titleMax := 200, titleMin := 145, descMax := 200,
      keywordsMin := 30, keywordsMax := 50 }
  | .freepik =>
    { name := "Freepik", titleMax := 100, titleMin := 75, descMax := 200,
      keywordsMin := 30, keywordsMax := 50 }

/-- `interface Metadata`. -/
structure Metadata where
  title : String
  description : String
  keywords : List String
deriving DecidableEq, Repr

/-- `interface GenerationSettings` from `src/types.ts`, plus
`enforceTitleCase`, which the Gemini and Mistral adapters read from the
settings object even though the interface does not declare it. -/
structure GenerationSettings where
  minTitleWords : Nat
  maxTitleWords : Nat
  minKeywords : Nat
  maxKeywords : Nat
  minDescWords : Nat
  maxDescWords : Nat
  enableSilhouette : Bool
  enableCustomPrompt : Bool
  customPromptText : String
  enableWhiteBg : Bool
  enableTransparentBg : Bool
  enableProhibitedWords : Bool
  prohibitedWordsText : String
  enableSingleWordKeywords : Bool
  enforceTitleCase : Bool
deriving DecidableEq, Repr

/-- The parsed JSON body returned by a provider, with the adapters'
`json.title || ""`, `json.description || ""`, `json.keywords || []`
defaults already applied (an absent field is the default value). -/
structure RawResponse where
  title : String
  description : String
  keywords : List String
deriving DecidableEq, Repr

/-! ## Adapter post-processing

Deterministic post-processing applied to a parsed provider response.  Each
adapter's pipeline is transcribed from its own source file; the pieces that
are textually identical in all three sources (`toTitleCase`, the title
truncation, the keyword cleanup and the description limiting) are factored
into helpers used verbatim by each adapter definition. -/

/-- The `toTitleCase` helper of `geminiService.ts` / `mistralService.ts`:
`str.toLowerCase().split(' ').map(w => w.charAt(0).toUpperCase() + w.slice(1)).join(' ')`. -/
def toTitleCase (s : String) : String :=
  String.intercalate (" ") ((jsSplit (fun c => c = ' ') (jsToLower s)).map
    (fun w =>
      match w.data with
      | [] => ""
      | c :: rest => ⟨c.toUpper :: rest⟩))

/-- The title truncation shared by all three adapters:
```
if (title.length > config.titleMax) {
  const cut = title.substring(0, config.titleMax);
  title = cut.substring(0, Math.min(cut.length, cut.lastIndexOf(" "))) || cut;
}
``` -/
def truncateTitleJs (title : String) (titleMax : Nat) : String :=
  if jsLen title > titleMax then
    let cut := jsSubstring0 title (titleMax : Int)
    let t := jsSubstring0 cut (min (jsLen cut : Int) (jsLastIndexOfSpace cut))
    if t = "" then cut else t
  else title

/-- The keyword cleanup shared by all three adapters: lowercase + trim,
drop length-≤1 tags, optional prohibited-substring filter, optional
single-word split, first-occurrence dedup, truncate to
`settings.maxKeywords`. -/
def cleanKeywordsJs (raw : List String) (settings : GenerationSettings) : List String :=
  let kw1 := (raw.map (fun k => jsTrim (jsToLower k))).filter (fun k => jsLen k > 1)
  let kw2 :=
    if settings.enableProhibitedWords ∧ settings.prohibitedWordsText ≠ "" then
      let prohibited :=
        ((jsSplit (fun c => c = ',' ∨ c = ';' ∨ c = '\n') settings.prohibitedWordsText).map
          (fun w => jsToLower (jsTrim w))).filter (fun w => w ≠ "")
      kw1.filter (fun k => ¬ (prohibited.any (fun bad => jsIncludes k bad)))
    else kw1
  let kw3 := if settings.enableSingleWordKeywords then kw2.flatMap jsSplitWs else kw2
  (dedupFirst kw3).take settings.maxKeywords

/-- The description limiting shared by all three adapters:
`if (d.length > descMax) d = d.substring(0, descMax - 3) + "..."`. -/
def limitDescriptionJs (d : String) (descMax : Nat) : String :=
  if jsLen d > descMax then jsSubstring0 d ((descMax : Int) - 3) ++ ("...") else d

/-- Post-processing of `generateMetadataForPlatform`
(`src/services/geminiService.ts`, lines 232-278): optional title case, pad
a too-short title with the fixed filler, truncate, clean keywords, limit
description. -/
def generateMetadataForPlatformPost (raw : RawResponse) (platform : Platform)
    (settings : GenerationSettings) : Metadata :=
  let config := PLATFORM_CONFIGS platform
  let title0 := raw.title
  let title1 := if settings.enforceTitleCase then toTitleCase title0 else title0
  let title2 :=
    if jsLen title1 < config.titleMin then title1 ++ (" - High Quality Stock Photo")
    else title1
  let title3 := truncateTitleJs title2 config.titleMax
  { title := title3,
    description := limitDescriptionJs raw.description config.descMax,
    keywords := cleanKeywordsJs raw.keywords settings }

/-- Post-processing of `generateMetadataForPlatformMistral`
(`src/services/mistralService.ts`, lines 192-225): optional title case,
truncate (no minimum-length padding step), clean keywords, limit
description. -/
def generateMetadataForPlatformMistralPost (raw : RawResponse) (platform : Platform)
    (settings : GenerationSettings) : Metadata :=
  let config := PLATFORM_CONFIGS platform
  let title0 := raw.title
  let title1 := if settings.enforceTitleCase then toTitleCase title0 else title0
  let title2 := truncateTitleJs title1 config.titleMax
  { title := title2,
    description := limitDescriptionJs raw.description config.descMax,
    keywords := cleanKeywordsJs raw.keywords settings }

/-- Post-processing of `generateMetadataForPlatformGroq`
(`src/services/fileService.ts` Groq section, lines 372-399): pad a
too-short title with the fixed filler (no title-case step), truncate,
clean keywords, limit description. -/
def generateMetadataForPlatformGroqPost (raw : RawResponse) (platform : Platform)
    (settings : GenerationSettings) : Metadata :=
  let config := PLATFORM_CONFIGS platform
  let title0 := raw.title
  let title1 :=
    if jsLen title0 < config.titleMin then title0 ++ (" - High Quality Stock Photo")
    else title0
  let title2 := truncateTitleJs title1 config.titleMax
  { title := title2,
    description := limitDescriptionJs raw.description config.descMax,
    keywords := cleanKeywordsJs raw.keywords settings }

/-! ## Helper lemmas: case folding and keyword pipeline invariants -/

theorem char_toLower_idem (c : Char) : c.toLower.toLower = c.toLower := by
  unfold Char.toLower
  by_cases h : c.toNat ≥ 65 ∧ c.toNat ≤ 90
  · rw [if_pos h]
    have hv : ((c.toNat + 32).isValidChar) := Or.inl (by omega)
    have ht : (Char.ofNat (c.toNat + 32)).toNat = c.toNat + 32 := by
      simp only [Char.ofNat, Char.toNat] at hv ⊢
      rw [dif_pos hv]
      simp [Char.ofNatAux, UInt32.toNat, BitVec.toNat_ofNatLt]
    rw [ht, if_neg (by omega)]
  · rw [if_neg h, if_neg h]

/-- Every character of `s` is fixed by `Char.toLower` (holds of every
string the keyword pipeline has already lowercased). -/
def LowerFixed (s : String) : Prop := ∀ ch ∈ s.data, ch.toLower = ch

theorem jsToLower_lowerFixed (s : String) : LowerFixed (jsToLower s) := by
  intro ch hch
  simp only [jsToLower] at hch
  rcases List.mem_map.mp hch with ⟨c, _, rfl⟩
  exact char_toLower_idem c

theorem jsToLower_eq_of_lowerFixed {s : String} (h : LowerFixed s) : jsToLower s = s := by
  cases s with
  | mk data =>
    simp only [jsToLower]
    congr 1
    calc data.map Char.toLower = data.map id := List.map_congr_left fun a ha => h a ha
    _ = data := List.map_id data

theorem lowerFixed_of_chars_subset {s t : String}
    (hsub : ∀ ch ∈ t.data, ch ∈ s.data) (hs : LowerFixed s) : LowerFixed t :=
  fun ch hch => hs ch (hsub ch hch)

theorem mem_of_mem_dropWhile {α : Type} {p : α → Bool} :
    ∀ {l : List α} {a : α}, a ∈ l.dropWhile p → a ∈ l := by
  intro l
  induction l with
  | nil => intro a h; simp [List.dropWhile] at h
  | cons x xs ih =>
    intro a h
    rw [List.dropWhile_cons] at h
    by_cases hx : p x = true
    · rw [if_pos hx] at h; exact List.mem_cons_of_mem _ (ih h)
    · rw [if_neg hx] at h; exact h

theorem mem_jsTrim {s : String} {ch : Char} (h : ch ∈ (jsTrim s).data) : ch ∈ s.data := by
  simp only [jsTrim] at h
  rw [List.mem_reverse] at h
  have h2 := mem_of_mem_dropWhile h
  rw [List.mem_reverse] at h2
  exact mem_of_mem_dropWhile h2

theorem splitChAux_chars {p : Char → Bool} :
    ∀ (l acc piece : List Char), piece ∈ splitChAux p l acc →
      ∀ ch ∈ piece, ch ∈ l ∨ ch ∈ acc := by
  intro l
  induction l with
  | nil =>
    intro acc piece hp ch hch
    simp only [splitChAux, List.mem_singleton] at hp
    subst hp
    exact Or.inr (List.mem_reverse.mp hch)
  | cons c cs ih =>
    intro acc piece hp ch hch
    simp only [splitChAux] at hp
    by_cases hc : p c = true
    · rw [if_pos hc] at hp
      rcases List.mem_cons.mp hp with hp | hp
      · subst hp
        exact Or.inr (List.mem_reverse.mp hch)
      · rcases ih [] piece hp ch hch with h | h
        · exact Or.inl (List.mem_cons_of_mem _ h)
        · simp at h
    · rw [if_neg hc] at hp
      rcases ih (c :: acc) piece hp ch hch with h | h
      · exact Or.inl (List.mem_cons_of_mem _ h)
      · rcases List.mem_cons.mp h with h | h
        · exact Or.inl (h ▸ List.mem_cons_self c cs)
        · exact Or.inr h

theorem jsSplit_chars {p : Char → Bool} {s w : String} (hw : w ∈ jsSplit p s)
    {ch : Char} (hch : ch ∈ w.data) : ch ∈ s.data := by
  simp only [jsSplit, List.mem_map] at hw
  rcases hw with ⟨piece, hpiece, rfl⟩
  rcases splitChAux_chars s.data [] piece hpiece ch hch with h | h
  · exact h
  · simp at h

theorem jsSplitWs_chars {s w : String} (hw : w ∈ jsSplitWs s)
    {ch : Char} (hch : ch ∈ w.data) : ch ∈ s.data := by
  simp only [jsSplitWs, List.mem_filter] at hw
  exact jsSplit_chars hw.1 hch

theorem dedupFirstAux_subset :
    ∀ (l seen : List String) (x : String), x ∈ dedupFirstAux seen l → x ∈ l := by
  intro l
  induction l with
  | nil => intro seen x h; simp [dedupFirstAux] at h
  | cons y ys ih =>
    intro seen x h
    simp only [dedupFirstAux] at h
    by_cases hy : y ∈ seen
    · rw [if_pos hy] at h
      exact List.mem_cons_of_mem _ (ih seen x h)
    · rw [if_neg hy] at h
      rcases List.mem_cons.mp h with h | h
      · exact h ▸ List.mem_cons_self y ys
      · exact List.mem_cons_of_mem _ (ih (y :: seen) x h)

theorem dedupFirstAux_nodup :
    ∀ (l seen : List String),
      (dedupFirstAux seen l).Nodup ∧ ∀ x ∈ dedupFirstAux seen l, x ∉ seen := by
  intro l
  induction l with
  | nil => intro seen; simp [dedupFirstAux]
  | cons y ys ih =>
    intro seen
    simp only [dedupFirstAux]
    by_cases hy : y ∈ seen
    · rw [if_pos hy]
      exact ih seen
    · rw [if_neg hy]
      obtain ⟨hnd, hout⟩ := ih (y :: seen)
      refine ⟨List.nodup_cons.mpr ⟨fun hmem => ?_, hnd⟩, ?_⟩
      · exact hout y hmem (List.mem_cons_self y seen)
      · intro x hx
        rcases List.mem_cons.mp hx with hx | hx
        · exact hx ▸ hy
        · exact fun hxs => hout x hx (List.mem_cons_of_mem _ hxs)

theorem dedupFirst_nodup (l : List String) : (dedupFirst l).Nodup :=
  (dedupFirstAux_nodup l []).1

theorem cleanKeywordsJs_lowerFixed (raw : List String) (settings : GenerationSettings) :
    ∀ k ∈ cleanKeywordsJs raw settings, LowerFixed k := by
  intro k hk
  simp only [cleanKeywordsJs] at hk
  have hk2 := dedupFirstAux_subset _ _ _ (List.mem_of_mem_take hk)
  have stage1 : ∀ x ∈ (raw.map (fun k => jsTrim (jsToLower k))).filter
      (fun k => jsLen k > 1), LowerFixed x := by
    intro x hx
    have hx1 := (List.mem_filter.mp hx).1
    rcases List.mem_map.mp hx1 with ⟨k0, _, rfl⟩
    exact lowerFixed_of_chars_subset (fun ch h => mem_jsTrim h) (jsToLower_lowerFixed k0)
  have stage2 : ∀ x ∈ (if settings.enableProhibitedWords ∧ settings.prohibitedWordsText ≠ ""
      then ((raw.map (fun k => jsTrim (jsToLower k))).filter (fun k => jsLen k > 1)).filter
        (fun k => ¬ ((((jsSplit (fun c => c = ',' ∨ c = ';' ∨ c = '\n')
          settings.prohibitedWordsText).map (fun w => jsToLower (jsTrim w))).filter
            (fun w => w ≠ "")).any (fun bad => jsIncludes k bad)))
      else (raw.map (fun k => jsTrim (jsToLower k))).filter (fun k => jsLen k > 1)),
      LowerFixed x := by
    intro x hx
    split at hx
    · exact stage1 x (List.mem_filter.mp hx).1
    · exact stage1 x hx
  split at hk2
  · rcases List.mem_flatMap.mp hk2 with ⟨src, hsrc, hpiece⟩
    exact lowerFixed_of_chars_subset (fun ch h => jsSplitWs_chars hpiece h) (stage2 src hsrc)
  · exact stage2 k hk2

theorem cleanKeywordsJs_pairwise_ci (raw : List String) (settings : GenerationSettings) :
    (cleanKeywordsJs raw settings).Pairwise (fun a b => jsToLower a ≠ jsToLower b) := by
  have hnd : (cleanKeywordsJs raw settings).Nodup := by
    simp only [cleanKeywordsJs]
    exact (dedupFirst_nodup _).sublist (List.take_sublist _ _)
  refine hnd.imp_of_mem ?_
  intro a b ha hb hne
  rw [jsToLower_eq_of_lowerFixed (cleanKeywordsJs_lowerFixed raw settings a ha),
    jsToLower_eq_of_lowerFixed (cleanKeywordsJs_lowerFixed raw settings b hb)]
  exact hne

theorem cleanKeywordsJs_length (raw : List String) (settings : GenerationSettings) :
    (cleanKeywordsJs raw settings).length ≤ settings.maxKeywords := by
  simp only [cleanKeywordsJs]
  exact le_trans (List.length_take_le _ _) (le_refl _)

theorem limitDescriptionJs_length (d : String) (dm : Nat) (h3 : 3 ≤ dm) :
    jsLen (limitDescriptionJs d dm) ≤ dm := by
  simp only [limitDescriptionJs]
  by_cases h : jsLen d > dm
  · rw [if_pos h]
    have he : ((dm : Int) - 3).toNat = dm - 3 := by omega
    simp only [jsLen, jsSubstring0, he] at *
    have : (⟨d.data.take (dm - 3)⟩ ++ ("..." : String)).data
        = d.data.take (dm - 3) ++ ("..." : String).data := rfl
    rw [this, List.length_append, List.length_take]
    have : (("..." : String).data).length = 3 := by decide
    omega
  · rw [if_neg h]; omega

theorem descMax_ge_three (p : Platform) : 3 ≤ (PLATFORM_CONFIGS p).descMax := by
  cases p <;> decide

/-- A settings value used to instantiate concrete scenarios (all toggles
off, generous keyword budget). -/
def sampleSettings : GenerationSettings :=
  { minTitleWords := 5, maxTitleWords := 15, minKeywords := 30, maxKeywords := 49,
    minDescWords := 10, maxDescWords := 30, enableSilhouette := false,
    enableCustomPrompt := false, customPromptText := "", enableWhiteBg := false,
    enableTransparentBg := false, enableProhibitedWords := false,
    prohibitedWordsText := "", enableSingleWordKeywords := false,
    enforceTitleCase := false }

/-! ## Claim C6 -/

/-- Claim C6 (confirmed): for every raw provider response and every
settings/platform configuration, the `Metadata` returned by each adapter's
post-processing satisfies: no case-insensitively duplicate keywords, at
most `settings.maxKeywords` keywords, and a description of at most
`descMax` characters. -/
theorem post_processing_metadata_bounds (raw : RawResponse) (platform : Platform)
    (settings : GenerationSettings) :
    ((generateMetadataForPlatformPost raw platform settings).keywords.Pairwise
        (fun a b => jsToLower a ≠ jsToLower b)
      ∧ (generateMetadataForPlatformPost raw platform settings).keywords.length
          ≤ settings.maxKeywords
      ∧ jsLen (generateMetadataForPlatformPost raw platform settings).description
          ≤ (PLATFORM_CONFIGS platform).descMax)
    ∧ ((generateMetadataForPlatformMistralPost raw platform settings).keywords.Pairwise
        (fun a b => jsToLower a ≠ jsToLower b)
      ∧ (generateMetadataForPlatformMistralPost raw platform settings).keywords.length
          ≤ settings.maxKeywords
      ∧ jsLen (generateMetadataForPlatformMistralPost raw platform settings).description
          ≤ (PLATFORM_CONFIGS platform).descMax)
    ∧ ((generateMetadataForPlatformGroqPost raw platform settings).keywords.Pairwise
        (fun a b => jsToLower a ≠ jsToLower b)
      ∧ (generateMetadataForPlatformGroqPost raw platform settings).keywords.length
          ≤ settings.maxKeywords
      ∧ jsLen (generateMetadataForPlatformGroqPost raw platform settings).description
          ≤ (PLATFORM_CONFIGS platform).descMax) := by
  refine ⟨⟨?_, ?_, ?_⟩, ⟨?_, ?_, ?_⟩, ⟨?_, ?_, ?_⟩⟩ <;>
    first
      | exact cleanKeywordsJs_pairwise_ci raw.keywords settings
      | exact cleanKeywordsJs_length raw.keywords settings
      | exact limitDescriptionJs_length raw.description _ (descMax_ge_three platform)

/-! ## Claim C4 -/

/-- Claim C4 counterexample: the three adapters do not apply identical
post-processing.  With the Adobe configuration (`titleMin = 150`) and a
raw title `"Cat"`, the Gemini adapter pads the title with the fixed filler
while the Mistral adapter has no padding step; with `enforceTitleCase`
enabled and raw title `"cat"`, the Gemini adapter title-cases while the
Groq adapter has no title-case step. -/
theorem adapter_post_divergence_counterexample :
    (generateMetadataForPlatformPost ⟨"Cat", "d", []⟩ Platform.adobe sampleSettings
        ≠ generateMetadataForPlatformMistralPost ⟨"Cat", "d", []⟩ Platform.adobe sampleSettings)
    ∧ (generateMetadataForPlatformPost ⟨"cat", "d", []⟩ Platform.adobe
          { sampleSettings with enforceTitleCase := true }
        ≠ generateMetadataForPlatformGroqPost ⟨"cat", "d", []⟩ Platform.adobe
          { sampleSettings with enforceTitleCase := true }) := by
  constructor <;> decide

/-- Claim C4 (corrected): the keyword and description post-processing is
identical across the Gemini, Mistral and Groq adapters, and the title
truncation step is shared; but the full title pipelines differ — the
Mistral adapter omits the titleMin filler-padding step and the Groq
adapter omits the optional title-case step.  Gemini and Groq agree
whenever `enforceTitleCase` is disabled, and Gemini and Mistral agree
whenever the (optionally title-cased) title already reaches `titleMin`. -/
theorem adapter_post_partial_agreement (raw : RawResponse) (platform : Platform)
    (settings : GenerationSettings) :
    (generateMetadataForPlatformPost raw platform settings).keywords
        = (generateMetadataForPlatformMistralPost raw platform settings).keywords
    ∧ (generateMetadataForPlatformPost raw platform settings).keywords
        = (generateMetadataForPlatformGroqPost raw platform settings).keywords
    ∧ (generateMetadataForPlatformPost raw platform settings).description
        = (generateMetadataForPlatformMistralPost raw platform settings).description
    ∧ (generateMetadataForPlatformPost raw platform settings).description
        = (generateMetadataForPlatformGroqPost raw platform settings).description
    ∧ (settings.enforceTitleCase = false →
        generateMetadataForPlatformPost raw platform settings
          = generateMetadataForPlatformGroqPost raw platform settings)
    ∧ ((PLATFORM_CONFIGS platform).titleMin
          ≤ jsLen (if settings.enforceTitleCase then toTitleCase raw.title else raw.title) →
        generateMetadataForPlatformPost raw platform settings
          = generateMetadataForPlatformMistralPost raw platform settings) := by
  refine ⟨rfl, rfl, rfl, rfl, ?_, ?_⟩
  · intro h
    simp only [generateMetadataForPlatformPost, generateMetadataForPlatformGroqPost, h,
      if_false, Bool.false_eq_true]
  · intro h
    simp only [generateMetadataForPlatformPost, generateMetadataForPlatformMistralPost]
    rw [if_neg (by omega)]

/-- Witness for `adapter_post_partial_agreement` at a concrete input: with
title case disabled the Gemini and Groq adapters agree on a concrete raw
response. -/
theorem adapter_post_partial_agreement_witness :
    generateMetadataForPlatformPost ⟨"Cat", "d", ["K1", "k2"]⟩ Platform.adobe sampleSettings
      = generateMetadataForPlatformGroqPost ⟨"Cat", "d", ["K1", "k2"]⟩ Platform.adobe
          sampleSettings :=
  (adapter_post_partial_agreement ⟨"Cat", "d", ["K1", "k2"]⟩ Platform.adobe
    sampleSettings).2.2.2.2.1 rfl

/-! ## Claim C5 -/

theorem lastSpaceIdx_spec :
    ∀ (l : List Char) (k : Nat), lastSpaceIdx l = some k →
      k < l.length ∧ l.get? k = some ' ' := by
  intro l
  induction l with
  | nil => intro k h; simp [lastSpaceIdx] at h
  | cons c cs ih =>
    intro k h
    simp only [lastSpaceIdx] at h
    cases hcs : lastSpaceIdx cs with
    | some j =>
      rw [hcs] at h
      injection h with h
      subst h
      obtain ⟨hlt, hget⟩ := ih j hcs
      exact ⟨by simpa using Nat.succ_lt_succ hlt, by simpa using hget⟩
    | none =>
      rw [hcs] at h
      by_cases hc : c = ' '
      · rw [if_pos hc] at h
        injection h with h
        subst h
        exact ⟨Nat.succ_pos _, by simp [hc]⟩
      · rw [if_neg hc] at h
        exact absurd h (by simp)

/-- Claim C5 counterexample: two titles longer than `titleMax = 5` that
contain a whitespace boundary within the first 5 characters, yet whose
truncation cuts mid-word: a title whose only space within the limit is at
index 0 (the `substring(0, 0)` result is empty, so the code falls back to
the hard cut), and a title whose only whitespace within the limit is a
tab (the code searches only for the space character `" "`). -/
theorem title_truncation_counterexample :
    jsLen (" abcdef") = 7
    ∧ (' ' ∈ (String.data (" abcdef")).take 5)
    ∧ truncateTitleJs (" abcdef") 5 = (" abcd")
    ∧ (String.data (" abcdef")).get? 5 = some ('e')
    ∧ jsLen ("ab\tcdefgh") = 9
    ∧ ('\t' ∈ (String.data ("ab\tcdefgh")).take 5)
    ∧ Char.isWhitespace '\t' = true
    ∧ truncateTitleJs ("ab\tcdefgh") 5 = ("ab\tcd")
    ∧ (String.data ("ab\tcdefgh")).get? 5 = some ('e') := by
  decide

/-- Claim C5 (corrected): for a title longer than `titleMax`, truncation
cuts at the last *space character* (U+0020) within the first `titleMax`
characters provided that space is at a *positive* index: the result is
the title's prefix of length `k` (so at most `titleMax`), and the
character right after it in the title is a space, so no word is split at
that boundary.  When no space occurs within the limit — or the only
space is at index 0, making the boundary cut empty — the code
hard-truncates to exactly the first `titleMax` characters. -/
theorem title_truncation_amended (title : String) (titleMax : Nat)
    (hlong : jsLen title > titleMax) :
    (∀ k : Nat, lastSpaceIdx (title.data.take titleMax) = some k → 0 < k →
      truncateTitleJs title titleMax = ⟨title.data.take k⟩
      ∧ title.data.get? k = some ' '
      ∧ k ≤ titleMax)
    ∧ (lastSpaceIdx (title.data.take titleMax) = some 0
        ∨ lastSpaceIdx (title.data.take titleMax) = none →
      truncateTitleJs title titleMax = ⟨title.data.take titleMax⟩
      ∧ jsLen (truncateTitleJs title titleMax) = titleMax) := by
  have hcutlen : (title.data.take titleMax).length = titleMax := by
    rw [List.length_take]
    simp only [jsLen] at hlong
    omega
  have hcut : jsSubstring0 title (titleMax : Int) = ⟨title.data.take titleMax⟩ := by
    simp [jsSubstring0]
  constructor
  · intro k hk hkpos
    obtain ⟨hklt, hkget⟩ := lastSpaceIdx_spec _ k hk
    rw [hcutlen] at hklt
    refine ⟨?_, ?_, Nat.le_of_lt hklt⟩
    · simp only [truncateTitleJs, hcut]
      rw [if_pos hlong]
      simp only [jsLastIndexOfSpace, hk]
      have hmin : min ((jsLen (⟨title.data.take titleMax⟩ : String)) : Int) (k : Int)
          = (k : Int) := by
        simp only [jsLen, hcutlen]
        omega
      rw [hmin]
      have htake : jsSubstring0 (⟨title.data.take titleMax⟩ : String) (k : Int)
          = ⟨title.data.take k⟩ := by
        simp only [jsSubstring0, Int.toNat_natCast, List.take_take]
        rw [Nat.min_eq_left (Nat.le_of_lt hklt)]
      rw [htake]
      rw [if_neg ?_]
      intro hcontra
      have hdata : title.data.take k = [] := congrArg String.data hcontra
      have hlen : (title.data.take k).length = 0 := by rw [hdata]; rfl
      rw [List.length_take] at hlen
      simp only [jsLen] at hlong
      omega
    · rw [List.get?_eq_getElem?] at hkget ⊢
      rw [← List.getElem?_take_of_lt hklt]
      exact hkget
  · intro hcase
    have hres : truncateTitleJs title titleMax = ⟨title.data.take titleMax⟩ := by
      simp only [truncateTitleJs, hcut]
      rw [if_pos hlong]
      rcases hcase with h0 | hn
      · simp only [jsLastIndexOfSpace, h0]
        have hmin : min ((jsLen (⟨title.data.take titleMax⟩ : String)) : Int) ((0 : Nat) : Int)
            = (0 : Int) := by
          simp only [jsLen]
          omega
        rw [hmin]
        have : jsSubstring0 (⟨title.data.take titleMax⟩ : String) (0 : Int) = "" := by
          simp [jsSubstring0]
        rw [this]
        rw [if_pos rfl]
      · simp only [jsLastIndexOfSpace, hn]
        have hmin : min ((jsLen (⟨title.data.take titleMax⟩ : String)) : Int) (-1 : Int)
            = (-1 : Int) := by
          simp only [jsLen]
          omega
        rw [hmin]
        have : jsSubstring0 (⟨title.data.take titleMax⟩ : String) (-1 : Int) = "" := by
          simp [jsSubstring0]
        rw [this]
        rw [if_pos rfl]
    refine ⟨hres, ?_⟩
    rw [hres]
    simpa [jsLen] using hcutlen

/-- Witness for `title_truncation_amended` at the specification's own
example: `"Red Fox Running Through Golden Autumn Forest At Sunset"` with
`titleMax = 30` truncates to the word boundary at index 23, yielding
`"Red Fox Running Through"`. -/
theorem title_truncation_amended_witness :
    truncateTitleJs ("Red Fox Running Through Golden Autumn Forest At Sunset") 30
      = ⟨("Red Fox Running Through Golden Autumn Forest At Sunset").data.take 23⟩
    ∧ truncateTitleJs ("Red Fox Running Through Golden Autumn Forest At Sunset") 30
      = ("Red Fox Running Through") :=
  ⟨((title_truncation_amended ("Red Fox Running Through Golden Autumn Forest At Sunset")
      30 (by decide)).1 23 (by decide) (by decide)).1,
   by decide⟩

/-! ## Orchestrator state model (`src/App.tsx`)

Work-item state and the batch / regeneration / editing operations.  The
provider call (`generateMetadataForPlatform` behind its retry wrapper) is
modelled as an oracle `Platform → Except String Metadata` giving the
settled outcome (after retries) of the generation for each platform; the
string of an `Except.error` is the failure's message.  React's
`setFiles(current => current.map(...))` replace-by-identifier updates are
modelled as pure list maps; chunking only bounds concurrency and each
item's final state is produced by its own per-item task, so the final
collection is the per-item map of outcomes. -/

/-- `type ProcessingStatus = 'pending' | 'processing' | 'complete' | 'error'`. -/
inductive Status where
  | pending
  | processing
  | complete
  | error
deriving DecidableEq, Repr

/-- The `platformMetadata: Record<Platform, Metadata | null>` record. -/
structure PlatformMetadata where
  adobe : Option Metadata
  shutterstock : Option Metadata
  freepik : Option Metadata
deriving DecidableEq, Repr

/-- `pm[platform]`. -/
def PlatformMetadata.get (pm : PlatformMetadata) : Platform → Option Metadata
  | .adobe => pm.adobe
  | .shutterstock => pm.shutterstock
  | .freepik => pm.freepik

/-- `{ ...pm, [platform]: v }`. -/
def PlatformMetadata.set (pm : PlatformMetadata) : Platform → Option Metadata → PlatformMetadata
  | .adobe, v => { pm with adobe := v }
  | .shutterstock, v => { pm with shutterstock := v }
  | .freepik, v => { pm with freepik := v }

/-- `interface ProcessedFile` (the `File` objects and the thumbnail are
opaque handles here; they are never inspected by the orchestration). -/
structure ProcessedFile where
  id : Nat
  file : Nat
  previewFile : Option Nat
  thumbnail : String
  status : Status
  platformMetadata : PlatformMetadata
  error : Option String
  activePlatform : Platform
deriving DecidableEq, Repr

/-- The sequential per-platform loop of one item's batch task: attempt
each selected platform in order via the generation oracle, accumulating
`metadataResults`; stop at the first failure.  Returns the outcome (all
collected results, or the first failure's message) together with the list
of platforms actually attempted. -/
def attemptPlatforms (gen : Platform → Except String Metadata) :
    List Platform → Except String (List (Platform × Metadata)) × List Platform
  | [] => (.ok [], [])
  | p :: ps =>
    match gen p with
    | .error e => (.error e, [p])
    | .ok m =>
      let rest := attemptPlatforms gen ps
      (rest.1.map (fun l => (p, m) :: l), p :: rest.2)

/-- `{ ...f.platformMetadata, ...metadataResults }`: spread the collected
per-platform results over the existing record (later entries override). -/
def mergeMetadata (pm : PlatformMetadata) (results : List (Platform × Metadata)) :
    PlatformMetadata :=
  results.foldl (fun acc pr => acc.set pr.1 (some pr.2)) pm

/-- One item's task inside `processBatch` (`src/App.tsx`, lines 188-216):
skip `complete` items; otherwise set `processing`, run the sequential
per-platform loop, then either mark `complete` and merge all collected
results in one update, or mark `error` (the `error` message field is not
written by this path and the collected results are discarded).  Returns
the item's final state, the list of status values written to it during
the pass, and the platforms attempted. -/
def processBatchItem (gen : Platform → Except String Metadata)
    (selectedPlatforms : List Platform) (item : ProcessedFile) :
    ProcessedFile × List Status × List Platform :=
  if item.status = .complete then (item, [], [])
  else
    let itemP := { item with status := Status.processing }
    match attemptPlatforms gen selectedPlatforms with
    | (.ok results, attempted) =>
      ({ itemP with
          status := Status.complete,
          platformMetadata := mergeMetadata itemP.platformMetadata results },
        [Status.processing, Status.complete], attempted)
    | (.error _, attempted) =>
      ({ itemP with status := Status.error }, [Status.processing, Status.error], attempted)

/-- `processBatch` (`src/App.tsx`, lines 172-219): precondition check on
the key pool, then every item is driven through its own task; the final
collection replaces each item by its task's outcome.  The oracle is
indexed by item id so outcomes may differ per item. -/
def processBatch (apiKeys : List String) (gen : Nat → Platform → Except String Metadata)
    (selectedPlatforms : List Platform) (files : List ProcessedFile) : List ProcessedFile :=
  if apiKeys = [] then files
  else files.map (fun f => (processBatchItem (gen f.id) selectedPlatforms f).1)

/-- `handleRegenerate` (`src/App.tsx`, lines 136-169): single-item
regeneration.  If the key pool is empty or the id is absent nothing
happens; otherwise the item is set to `processing` with its `error`
cleared, all selected platforms are re-run from scratch, and the item
ends `complete` (merging all results) or `error` with the failure's
message (with a generic fallback for an empty message). -/
def handleRegenerate (apiKeys : List String) (gen : Platform → Except String Metadata)
    (selectedPlatforms : List Platform) (id : Nat) (files : List ProcessedFile) :
    List ProcessedFile :=
  if apiKeys = [] then files
  else
    match files.find? (fun f => f.id = id) with
    | none => files
    | some _ =>
      let files1 := files.map (fun f =>
        if f.id = id then { f with status := Status.processing, error := none } else f)
      match attemptPlatforms gen selectedPlatforms with
      | (.ok results, _) =>
        files1.map (fun f =>
          if f.id = id then
            { f with
                status := Status.complete,
                platformMetadata := mergeMetadata f.platformMetadata results }
          else f)
      | (.error e, _) =>
        files1.map (fun f =>
          if f.id = id then
            { f with
                status := Status.error,
                error := some (if e = "" then "Failed to regenerate" else e) }
          else f)

/-- The `(field, value)` pair of `updateMetadata` (the UI only passes the
three declared field names, `ResultItem.tsx` line 8). -/
inductive FieldValue where
  | title (v : String)
  | description (v : String)
  | keywords (v : List String)
deriving DecidableEq, Repr

/-- `{ ...meta, [field]: value }`. -/
def Metadata.setField (m : Metadata) : FieldValue → Metadata
  | .title v => { m with title := v }
  | .description v => { m with description := v }
  | .keywords v => { m with keywords := v }

/-- `updateMetadata` (`src/App.tsx`, lines 222-235): per-field edit of one
item's metadata for one platform, guarded by
`f.id === id && f.platformMetadata[platform]`. -/
def updateMetadata (files : List ProcessedFile) (id : Nat) (platform : Platform)
    (fv : FieldValue) : List ProcessedFile :=
  files.map (fun f =>
    if f.id = id then
      match f.platformMetadata.get platform with
      | some m =>
        { f with platformMetadata := f.platformMetadata.set platform (some (m.setField fv)) }
      | none => f
    else f)

/-- `BulkOperations` (`src/components/BulkEditModal.tsx`); the source
fields `prefix` and `suffix` are named `prefixText` / `suffixText` here. -/
structure BulkOperations where
  platforms : List Platform
  findText : String
  replaceText : String
  prefixText : String
  suffixText : String
  addKeywords : String
deriving DecidableEq, Repr

/-- The per-entry transformation of `handleBulkApply` (`src/App.tsx`,
lines 247-275): find/replace in the title when `findText` is truthy, wrap
with the affixes, then append the comma-split, trimmed, lowercased,
non-empty new keywords and dedup the union. -/
def bulkTransformMeta (ops : BulkOperations) (meta : Metadata) : Metadata :=
  let title := meta.title
  let title :=
    if ops.findText ≠ "" then
      String.intercalate ops.replaceText (title.splitOn ops.findText)
    else title
  let title := ops.prefixText ++ title ++ ops.suffixText
  let keywords := meta.keywords
  let keywords :=
    if ops.addKeywords ≠ "" then
      let newKws := ((jsSplit (fun c => c = ',') ops.addKeywords).map
        (fun k => jsToLower (jsTrim k))).filter (fun k => k ≠ "")
      dedupFirst (keywords ++ newKws)
    else keywords
  { meta with title := title, keywords := keywords }

/-- The collection transformation of `handleBulkApply`: for each file,
walk the selected platforms, transforming each present metadata entry and
tracking the `modified` flag. -/
def handleBulkApplyFiles (ops : BulkOperations) (files : List ProcessedFile) :
    List ProcessedFile :=
  files.map (fun file =>
    let step := ops.platforms.foldl
      (fun (acc : PlatformMetadata × Bool) p =>
        match acc.1.get p with
        | some meta => (acc.1.set p (some (bulkTransformMeta ops meta)), true)
        | none => acc)
      (file.platformMetadata, false)
    if step.2 then { file with platformMetadata := step.1 } else file)

/-- The `files` / `history` slice of the App state. -/
structure AppHistState where
  files : List ProcessedFile
  history : List (List ProcessedFile)
deriving DecidableEq, Repr

/-- `handleBulkApply` (`src/App.tsx`, lines 238-276): push the current
collection onto the history (keeping only the last 10 snapshots), then
apply the bulk transformation. -/
def handleBulkApply (ops : BulkOperations) (st : AppHistState) : AppHistState :=
  let newHistory := st.history ++ [st.files]
  let cappedHistory :=
    if newHistory.length > 10 then newHistory.drop (newHistory.length - 10) else newHistory
  { files := handleBulkApplyFiles ops st.files, history := cappedHistory }

/-- `handleUndo` (`src/App.tsx`, lines 279-284): pop the most recent
snapshot (if any) and replace the live collection with it. -/
def handleUndo (st : AppHistState) : AppHistState :=
  match st.history.getLast? with
  | none => st
  | some previousState => { files := previousState, history := st.history.dropLast }

/-! ## Credential rotation model (`src/App.tsx`, lines 179-204)

The shared `keyIndex` counter and the key drawn per dispatched
(item, platform) task.  The single-threaded event loop makes the
read-then-increment of `keyIndex` atomic per dispatch; the interleaving
of dispatches across the concurrently processed items of a chunk is
unspecified, so it is a parameter (`sched`): at each step the scheduled
item dispatches its next remaining platform (a failed generation drops
the item's remaining platforms, as the per-item loop stops).  The trace
records, in dispatch order, the counter value and the credential index
`keyIndex % apiKeys.length` drawn by each task. -/

structure DispatchState where
  keyIndex : Nat
  trace : List (Nat × Nat)
  pending : List (List Platform)
deriving DecidableEq, Repr

/-- One dispatch by the item at position `itemIdx` of the running chunk:
draw `apiKeys[keyIndex % apiKeys.length]`, increment the shared counter,
and consume the item's next platform (all of them on failure). -/
def dispatchStep (apiKeysLen : Nat) (ok : Nat → Platform → Bool) (itemIdx : Nat)
    (st : DispatchState) : DispatchState :=
  match st.pending[itemIdx]? with
  | some (p :: rest) =>
    { keyIndex := st.keyIndex + 1,
      trace := st.trace ++ [(st.keyIndex, st.keyIndex % apiKeysLen)],
      pending := st.pending.set itemIdx (if ok itemIdx p then rest else []) }
  | _ => st

/-- Run the dispatches of a batch under an arbitrary schedule. -/
def dispatchRun (apiKeysLen : Nat) (ok : Nat → Platform → Bool) (sched : List Nat)
    (st : DispatchState) : DispatchState :=
  sched.foldl (fun s i => dispatchStep apiKeysLen ok i s) st

/-- The batch run's starting dispatch state: counter `0`, empty trace,
every item still owing every selected platform. -/
def initDispatchState (items : List (List Platform)) : DispatchState :=
  { keyIndex := 0, trace := [], pending := items }

/-! ## Retry wrapper model (`generateContentWithRetry` in
`geminiService.ts`, `callMistralApi` in `mistralService.ts`, `callGroqApi`
in `fileService.ts`)

A provider attempt is an oracle `Nat → Except ApiError α` giving the
outcome of the i-th attempt; `jitter i` models `Math.random() * 1000` for
the i-th backoff.  The result is `some (ok ...)`, `some (error ...)` (a
return or a throw), or `none` for the loop falling through (which the
theorems show cannot happen); the trace lists, per retried attempt `i`,
the delay waited after it. -/

/-- A provider error as the retry wrappers observe it: an optional HTTP
status (the Gemini SDK error carries one) and a message. -/
structure ApiError where
  status : Option Nat
  message : String
deriving DecidableEq, Repr

/-- The transient-failure classifier of `generateContentWithRetry`
(`geminiService.ts`, lines 88-95). -/
def isRetryableGemini (e : ApiError) : Bool :=
  (e.status == some 429) || (e.status == some 503) ||
  (e.message != "" &&
    (jsIncludes e.message ("429") || jsIncludes e.message ("503") ||
      jsIncludes e.message ("Quota exceeded") || jsIncludes e.message ("overloaded")))

/-- The transient-failure classifier of `callMistralApi`
(`mistralService.ts`, lines 83-85). -/
def isRetryableMistral (e : ApiError) : Bool :=
  jsIncludes e.message ("429") || jsIncludes e.message ("500") ||
    jsIncludes e.message ("503")

/-- The transient-failure classifier of `callGroqApi`
(`fileService.ts`, lines 275-277). -/
def isRetryableGroq (e : ApiError) : Bool :=
  jsIncludes e.message ("429") || jsIncludes e.message ("500") ||
    jsIncludes e.message ("503")

/-- The retry loop shared by the three wrappers
(`for (let i = 0; i < retries; i++) ...`), with the provider-specific
classifier and base delay as parameters.  `fuel` counts the remaining
iterations (`retries - i`). -/
def retryGo {α : Type} (attempt : Nat → Except ApiError α) (isRetryable : ApiError → Bool)
    (base : Nat) (jitter : Nat → Nat) (retries : Nat) :
    Nat → Nat → Option (Except ApiError α) × List (Nat × Nat)
  | _, 0 => (none, [])
  | i, fuel + 1 =>
    match attempt i with
    | .ok a => (some (.ok a), [])
    | .error e =>
      if isRetryable e && decide (i < retries - 1) then
        let d := base * 2 ^ i + jitter i
        let rest := retryGo attempt isRetryable base jitter retries (i + 1) fuel
        (rest.1, (i, d) :: rest.2)
      else (some (.error e), [])

/-- `generateContentWithRetry(ai, params, retries = 5)`: Gemini classifier,
base delay 2000 ms. -/
def generateContentWithRetry {α : Type} (attempt : Nat → Except ApiError α)
    (jitter : Nat → Nat) : Option (Except ApiError α) × List (Nat × Nat) :=
  retryGo attempt isRetryableGemini 2000 jitter 5 0 5

/-- `callMistralApi(apiKey, payload, retries = 5)`: Mistral classifier,
base delay 2000 ms. -/
def callMistralApi {α : Type} (attempt : Nat → Except ApiError α)
    (jitter : Nat → Nat) : Option (Except ApiError α) × List (Nat × Nat) :=
  retryGo attempt isRetryableMistral 2000 jitter 5 0 5

/-- `callGroqApi(apiKey, payload, retries = 5)`: Groq classifier, and the
larger base delay 3000 ms for Groq's tighter rate limits. -/
def callGroqApi {α : Type} (attempt : Nat → Except ApiError α)
    (jitter : Nat → Nat) : Option (Except ApiError α) × List (Nat × Nat) :=
  retryGo attempt isRetryableGroq 3000 jitter 5 0 5

/-! ## Properties of the per-item platform loop -/

theorem attemptPlatforms_error (gen : Platform → Except String Metadata) :
    ∀ (platforms : List Platform) (e : String),
      (attemptPlatforms gen platforms).1 = Except.error e →
      ∃ pre p post, platforms = pre ++ p :: post
        ∧ (attemptPlatforms gen platforms).2 = pre ++ [p]
        ∧ gen p = Except.error e
        ∧ ∀ q ∈ pre, ∃ m, gen q = Except.ok m := by
  intro platforms
  induction platforms with
  | nil => intro e h; simp [attemptPlatforms] at h
  | cons p ps ih =>
    intro e h
    cases hg : gen p with
    | error e0 =>
      have he : e0 = e := by simpa [attemptPlatforms, hg] using h
      subst he
      exact ⟨[], p, ps, rfl, by simp [attemptPlatforms, hg], hg, by simp⟩
    | ok m =>
      have hrest : (attemptPlatforms gen ps).1 = Except.error e := by
        simp only [attemptPlatforms, hg] at h
        cases hr : (attemptPlatforms gen ps).1 with
        | error e1 =>
          rw [hr] at h
          simp [Except.map] at h
          rw [h]
        | ok l =>
          rw [hr] at h
          simp [Except.map] at h
      obtain ⟨pre, q, post, hsplit, hatt, hq, hpre⟩ := ih e hrest
      refine ⟨p :: pre, q, post, by rw [hsplit, List.cons_append], ?_, hq, ?_⟩
      · simp only [attemptPlatforms, hg]
        rw [hatt, List.cons_append]
      · intro x hx
        rcases List.mem_cons.mp hx with hx | hx
        · exact ⟨m, hx ▸ hg⟩
        · exact hpre x hx

theorem attemptPlatforms_ok (gen : Platform → Except String Metadata) :
    ∀ (platforms : List Platform) (results : List (Platform × Metadata)),
      (attemptPlatforms gen platforms).1 = Except.ok results →
      (attemptPlatforms gen platforms).2 = platforms
      ∧ results.map Prod.fst = platforms
      ∧ ∀ pr ∈ results, gen pr.1 = Except.ok pr.2 := by
  intro platforms
  induction platforms with
  | nil =>
    intro results h
    have h2 : ([] : List (Platform × Metadata)) = results := by
      simpa [attemptPlatforms] using h
    subst h2
    simp [attemptPlatforms]
  | cons p ps ih =>
    intro results h
    cases hg : gen p with
    | error e0 =>
      exfalso
      simp [attemptPlatforms, hg] at h
    | ok m =>
      simp only [attemptPlatforms, hg] at h
      cases hr : (attemptPlatforms gen ps).1 with
      | error e1 =>
        rw [hr] at h
        simp [Except.map] at h
      | ok l =>
        rw [hr] at h
        simp only [Except.map] at h
        have hres : (p, m) :: l = results := by simpa using h
        obtain ⟨hatt, hmap, hall⟩ := ih l hr
        subst hres
        refine ⟨?_, by simp [hmap], ?_⟩
        · simp only [attemptPlatforms, hg]
          rw [hatt]
        · intro pr hpr
          rcases List.mem_cons.mp hpr with hpr | hpr
          · rw [hpr]; exact hg
          · exact hall pr hpr

/-! ## Concrete scenario objects -/

/-- An empty per-platform metadata record (`{ adobe: null, shutterstock:
null, freepik: null }`). -/
def emptyPM : PlatformMetadata := { adobe := none, shutterstock := none, freepik := none }

/-- A sample generated metadata value. -/
def sampleMeta : Metadata :=
  { title := "A Title", description := "A description", keywords := ["alpha", "beta"] }

/-- A freshly uploaded pending work item. -/
def pendingItem : ProcessedFile :=
  { id := 1, file := 0, previewFile := none, thumbnail := "", status := Status.pending,
    platformMetadata := emptyPM, error := none, activePlatform := Platform.adobe }

/-- A work item already in the `error` state from an earlier run. -/
def errorItem : ProcessedFile :=
  { id := 2, file := 0, previewFile := none, thumbnail := "", status := Status.error,
    platformMetadata := emptyPM, error := some ("previous failure"),
    activePlatform := Platform.adobe }

/-- A generation oracle that succeeds for Adobe and fails afterwards. -/
def genAdobeOkThenFail : Platform → Except String Metadata
  | .adobe => .ok sampleMeta
  | .shutterstock => .error ("boom")
  | .freepik => .error ("boom")

/-- A generation oracle that always succeeds. -/
def genAllOk : Platform → Except String Metadata := fun _ => .ok sampleMeta

/-! ## Claim C1 -/

/-- Claim C1 counterexample: Adobe's generation succeeds first, then
Shutterstock's fails in the same pass for the same item — yet the Adobe
metadata is *not* in the item's `platformMetadata` afterwards: the batch
task merges nothing until every platform has succeeded, so the results
collected before the failure are discarded. -/
theorem batch_incremental_merge_counterexample :
    genAdobeOkThenFail Platform.adobe = Except.ok sampleMeta
    ∧ genAdobeOkThenFail Platform.shutterstock = Except.error ("boom")
    ∧ (processBatchItem genAdobeOkThenFail [Platform.adobe, Platform.shutterstock]
        pendingItem).1.platformMetadata.adobe = none
    ∧ (processBatchItem genAdobeOkThenFail [Platform.adobe, Platform.shutterstock]
        pendingItem).2.2 = [Platform.adobe, Platform.shutterstock] := by
  decide

/-- Claim C1 (corrected): a batch item's metadata is merged into the
shared state in a single update only after *all* selected platforms have
succeeded; when any platform fails, the item's `platformMetadata` is left
exactly as it was before the pass — results of earlier-succeeding
platforms of the same pass are discarded (metadata from earlier runs is
kept, since the record is untouched). -/
theorem batch_merge_atomic_per_item (gen : Platform → Except String Metadata)
    (platforms : List Platform) (item : ProcessedFile)
    (h : item.status ≠ Status.complete) :
    (∀ e, (attemptPlatforms gen platforms).1 = Except.error e →
      (processBatchItem gen platforms item).1.platformMetadata = item.platformMetadata
      ∧ (processBatchItem gen platforms item).1.status = Status.error)
    ∧ (∀ results, (attemptPlatforms gen platforms).1 = Except.ok results →
      (processBatchItem gen platforms item).1.platformMetadata
        = mergeMetadata item.platformMetadata results
      ∧ (processBatchItem gen platforms item).1.status = Status.complete) := by
  constructor
  · intro e he
    obtain ⟨att, hA⟩ : ∃ att, attemptPlatforms gen platforms = (Except.error e, att) :=
      ⟨(attemptPlatforms gen platforms).2, by rw [← he]⟩
    simp [processBatchItem, if_neg h, hA]
  · intro results hr
    obtain ⟨att, hA⟩ : ∃ att, attemptPlatforms gen platforms = (Except.ok results, att) :=
      ⟨(attemptPlatforms gen platforms).2, by rw [← hr]⟩
    simp [processBatchItem, if_neg h, hA]

/-- Witness for `batch_merge_atomic_per_item`: in the concrete mixed
success/failure scenario the item's metadata record is unchanged. -/
theorem batch_merge_atomic_per_item_witness :
    (processBatchItem genAdobeOkThenFail [Platform.adobe, Platform.shutterstock]
        pendingItem).1.platformMetadata = pendingItem.platformMetadata
    ∧ pendingItem.status ≠ Status.complete :=
  ⟨((batch_merge_atomic_per_item genAdobeOkThenFail
      [Platform.adobe, Platform.shutterstock] pendingItem (by decide)).1
      ("boom") (by decide)).1,
    by decide⟩

/-! ## Claim C2 -/

/-- Claim C2 counterexample: a platform failure during the batch pass
flips the item's status to `error` and abandons the remaining platform,
but does *not* set the item's `error` field to the failure's message —
the batch `catch` writes only `{ status: 'error' }`. -/
theorem batch_error_message_counterexample :
    genAdobeOkThenFail Platform.shutterstock = Except.error ("boom")
    ∧ (processBatchItem genAdobeOkThenFail
        [Platform.adobe, Platform.shutterstock, Platform.freepik] pendingItem).1.status
        = Status.error
    ∧ (processBatchItem genAdobeOkThenFail
        [Platform.adobe, Platform.shutterstock, Platform.freepik] pendingItem).1.error
        = none
    ∧ (processBatchItem genAdobeOkThenFail
        [Platform.adobe, Platform.shutterstock, Platform.freepik] pendingItem).2.2
        = [Platform.adobe, Platform.shutterstock] := by
  decide

/-- Claim C2 (corrected): when a platform's generation fails during a
batch pass, the item's status is set to `error` and the remaining
selected platforms are not attempted (the attempted list is exactly the
successful ones followed by the failing platform), but the item's
`error` field is left unchanged — the batch path does not record the
failure's message (only single-item regeneration does). -/
theorem batch_failure_sets_status_only (gen : Platform → Except String Metadata)
    (platforms : List Platform) (item : ProcessedFile)
    (h : item.status ≠ Status.complete) :
    ∀ e, (attemptPlatforms gen platforms).1 = Except.error e →
      (processBatchItem gen platforms item).1.status = Status.error
      ∧ (processBatchItem gen platforms item).1.error = item.error
      ∧ ∃ pre p post, platforms = pre ++ p :: post
          ∧ (processBatchItem gen platforms item).2.2 = pre ++ [p]
          ∧ gen p = Except.error e
          ∧ ∀ q ∈ pre, ∃ m, gen q = Except.ok m := by
  intro e he
  obtain ⟨pre, p, post, hsplit, hatt, hp, hpre⟩ := attemptPlatforms_error gen platforms e he
  obtain ⟨att, hA⟩ : ∃ att, attemptPlatforms gen platforms = (Except.error e, att) :=
    ⟨(attemptPlatforms gen platforms).2, by rw [← he]⟩
  rw [hA] at hatt
  simp only at hatt
  refine ⟨?_, ?_, pre, p, post, hsplit, ?_, hp, hpre⟩
  · simp [processBatchItem, if_neg h, hA]
  · simp [processBatchItem, if_neg h, hA]
  · simp [processBatchItem, if_neg h, hA, hatt]

/-- Witness for `batch_failure_sets_status_only` in the concrete mixed
scenario. -/
theorem batch_failure_sets_status_only_witness :
    (processBatchItem genAdobeOkThenFail
        [Platform.adobe, Platform.shutterstock, Platform.freepik] pendingItem).1.status
      = Status.error
    ∧ (processBatchItem genAdobeOkThenFail
        [Platform.adobe, Platform.shutterstock, Platform.freepik] pendingItem).1.error
      = pendingItem.error :=
  ⟨(batch_failure_sets_status_only genAdobeOkThenFail
      [Platform.adobe, Platform.shutterstock, Platform.freepik] pendingItem (by decide)
      ("boom") (by decide)).1,
   (batch_failure_sets_status_only genAdobeOkThenFail
      [Platform.adobe, Platform.shutterstock, Platform.freepik] pendingItem (by decide)
      ("boom") (by decide)).2.1⟩

/-! ## Claim C3 -/

/-- Claim C3 counterexample: a full-batch run *does* move an error-status
item back into `processing` — `processBatch` skips only `complete` items,
so the error item is re-processed (its status writes during the pass are
`processing` then `complete`) and ends `complete` when generation now
succeeds. -/
theorem batch_reprocesses_error_item_counterexample :
    errorItem.status = Status.error
    ∧ (processBatchItem genAllOk [Platform.adobe] errorItem).2.1
        = [Status.processing, Status.complete]
    ∧ (processBatch [("k1")] (fun _ => genAllOk) [Platform.adobe] [errorItem]).map
        (fun f => f.status) = [Status.complete] := by
  decide

/-- Claim C3 (corrected): a batch run skips only `complete` items; an
error-status item is re-processed by a subsequent full-batch run (its
first status write of the pass is `processing`), though its stale `error`
field is not reset by the batch path.  Explicit single-item regeneration
also re-runs the item: it ends `complete` with `error` cleared when all
selected platforms succeed, or `error` with the new failure's message
otherwise. -/
theorem error_status_transitions_amended (gen : Platform → Except String Metadata)
    (platforms : List Platform) (item : ProcessedFile) (apiKeys : List String)
    (files : List ProcessedFile) (id : Nat) (hkeys : apiKeys ≠ []) :
    (item.status ≠ Status.complete →
      (processBatchItem gen platforms item).2.1.head? = some Status.processing
      ∧ (processBatchItem gen platforms item).1.error = item.error)
    ∧ (item.status = Status.complete →
      processBatchItem gen platforms item = (item, [], []))
    ∧ (∀ f' ∈ handleRegenerate apiKeys gen platforms id files, f'.id = id →
        (∃ results, (attemptPlatforms gen platforms).1 = Except.ok results
          ∧ f'.status = Status.complete ∧ f'.error = none)
        ∨ (∃ e, (attemptPlatforms gen platforms).1 = Except.error e
          ∧ f'.status = Status.error
          ∧ f'.error = some (if e = "" then "Failed to regenerate" else e))) := by
  refine ⟨?_, ?_, ?_⟩
  · intro h
    rcases hr : (attemptPlatforms gen platforms).1 with e | results
    · obtain ⟨att, hA⟩ : ∃ att, attemptPlatforms gen platforms = (Except.error e, att) :=
        ⟨(attemptPlatforms gen platforms).2, by rw [← hr]⟩
      simp [processBatchItem, if_neg h, hA]
    · obtain ⟨att, hA⟩ : ∃ att, attemptPlatforms gen platforms = (Except.ok results, att) :=
        ⟨(attemptPlatforms gen platforms).2, by rw [← hr]⟩
      simp [processBatchItem, if_neg h, hA]
  · intro h
    simp [processBatchItem, h]
  · intro f' hf' hid
    simp only [handleRegenerate, if_neg hkeys] at hf'
    cases hfind : files.find? (fun f => f.id = id) with
    | none =>
      rw [hfind] at hf'
      have hnone := List.find?_eq_none.mp hfind f' hf'
      simp [hid] at hnone
    | some f0 =>
      rw [hfind] at hf'
      rcases hr : (attemptPlatforms gen platforms).1 with e | results
      · obtain ⟨att, hA⟩ : ∃ att, attemptPlatforms gen platforms = (Except.error e, att) :=
          ⟨(attemptPlatforms gen platforms).2, by rw [← hr]⟩
        rw [hA] at hf'
        simp only at hf'
        rcases List.mem_map.mp hf' with ⟨f1, hf1, rfl⟩
        rcases List.mem_map.mp hf1 with ⟨f2, _, rfl⟩
        by_cases h2 : f2.id = id
        · right
          exact ⟨e, rfl, by simp [h2], by simp [h2]⟩
        · exfalso
          simp [h2] at hid
      · obtain ⟨att, hA⟩ : ∃ att, attemptPlatforms gen platforms = (Except.ok results, att) :=
          ⟨(attemptPlatforms gen platforms).2, by rw [← hr]⟩
        rw [hA] at hf'
        simp only at hf'
        rcases List.mem_map.mp hf' with ⟨f1, hf1, rfl⟩
        rcases List.mem_map.mp hf1 with ⟨f2, _, rfl⟩
        by_cases h2 : f2.id = id
        · left
          exact ⟨results, rfl, by simp [h2], by simp [h2]⟩
        · exfalso
          simp [h2] at hid

/-- Witness for `error_status_transitions_amended`: the concrete error
item is moved to `processing` by a batch pass, and regenerating it with
an all-success oracle ends `complete` with `error` cleared. -/
theorem error_status_transitions_amended_witness :
    (processBatchItem genAllOk [Platform.adobe] errorItem).2.1.head?
        = some Status.processing
    ∧ (handleRegenerate [("k1")] genAllOk [Platform.adobe] 2 [errorItem]).map
        (fun f => (f.status, f.error)) = [(Status.complete, none)] :=
  ⟨((error_status_transitions_amended genAllOk [Platform.adobe] errorItem [("k1")]
      [errorItem] 2 (by decide)).1 (by decide)).1,
   by decide⟩

/-! ## Claim C10 -/

/-- Claim C10 (confirmed): when the item carrying the given id has no
metadata for the given platform, `updateMetadata` leaves the entire item
collection completely unchanged — the edit is silently dropped. -/
theorem updateMetadata_noop_on_missing_slot (files : List ProcessedFile) (itemId : Nat)
    (platform : Platform) (fv : FieldValue)
    (h : ∀ f ∈ files, f.id = itemId → f.platformMetadata.get platform = none) :
    updateMetadata files itemId platform fv = files := by
  unfold updateMetadata
  calc files.map (fun f =>
        if f.id = itemId then
          match f.platformMetadata.get platform with
          | some m =>
            { f with platformMetadata := f.platformMetadata.set platform (some (m.setField fv)) }
          | none => f
        else f)
      = files.map id := by
        apply List.map_congr_left
        intro f hf
        by_cases hfid : f.id = itemId
        · rw [if_pos hfid, h f hf hfid]
          rfl
        · rw [if_neg hfid]
          rfl
    _ = files := List.map_id files

/-- Witness for `updateMetadata_noop_on_missing_slot`: editing the Adobe
title of the pending item (whose Adobe slot is `null`) changes nothing. -/
theorem updateMetadata_noop_on_missing_slot_witness :
    updateMetadata [pendingItem] 1 Platform.adobe (FieldValue.title ("X")) = [pendingItem] :=
  updateMetadata_noop_on_missing_slot [pendingItem] 1 Platform.adobe
    (FieldValue.title ("X")) (by decide)

/-! ## Claim C9 -/

/-- A sequence of bulk edits applied in order. -/
def applyBulkSeq (ops : List BulkOperations) (st : AppHistState) : AppHistState :=
  ops.foldl (fun s o => handleBulkApply o s) st

/-- `n` successive undo clicks. -/
def undoTimes : Nat → AppHistState → AppHistState
  | 0, st => st
  | n + 1, st => undoTimes n (handleUndo st)

theorem handleBulkApply_history_len (ops : BulkOperations) (st : AppHistState) :
    (handleBulkApply ops st).history.length = min (st.history.length + 1) 10 := by
  simp only [handleBulkApply]
  split
  · rename_i hgt
    simp only [List.length_append, List.length_singleton] at hgt ⊢
    rw [List.length_drop]
    simp only [List.length_append, List.length_singleton]
    omega
  · rename_i hle
    simp only [List.length_append, List.length_singleton] at hle ⊢
    omega

/-- Claim C9 (confirmed): every bulk edit pushes the current collection
onto the history, the history never exceeds 10 snapshots (oldest evicted
first), and undo pops the latest snapshot wholesale — so after 12
consecutive bulk edits exactly 10 snapshots remain, and 10 successive
undos restore exactly the collection from immediately before the 3rd
edit (emptying the history). -/
theorem bulk_history_cap_and_undo (f0 : List ProcessedFile)
    (o1 o2 o3 o4 o5 o6 o7 o8 o9 o10 o11 o12 : BulkOperations) :
    (applyBulkSeq [o1, o2, o3, o4, o5, o6, o7, o8, o9, o10, o11, o12]
        { files := f0, history := [] }).history.length = 10
    ∧ (undoTimes 10 (applyBulkSeq [o1, o2, o3, o4, o5, o6, o7, o8, o9, o10, o11, o12]
        { files := f0, history := [] })).files
      = (applyBulkSeq [o1, o2] { files := f0, history := [] }).files
    ∧ (undoTimes 10 (applyBulkSeq [o1, o2, o3, o4, o5, o6, o7, o8, o9, o10, o11, o12]
        { files := f0, history := [] })).history = []
    ∧ (∀ (ops : BulkOperations) (st : AppHistState),
        (handleBulkApply ops st).history.length = min (st.history.length + 1) 10) := by
  refine ⟨?_, ?_, ?_, handleBulkApply_history_len⟩ <;>
    simp [applyBulkSeq, handleBulkApply, handleUndo, undoTimes]

/-! ## Claim C7 -/

theorem dispatchRun_inv (n : Nat) (ok : Nat → Platform → Bool) :
    ∀ (sched : List Nat) (st : DispatchState),
      st.trace = (List.range st.keyIndex).map (fun k => (k, k % n)) →
      (dispatchRun n ok sched st).trace
        = (List.range (dispatchRun n ok sched st).keyIndex).map (fun k => (k, k % n)) := by
  intro sched
  induction sched with
  | nil => intro st h; exact h
  | cons i rest ih =>
    intro st h
    have hstep : (dispatchStep n ok i st).trace
        = (List.range (dispatchStep n ok i st).keyIndex).map (fun k => (k, k % n)) := by
      unfold dispatchStep
      cases hp : st.pending[i]? with
      | none => exact h
      | some l =>
        cases l with
        | nil => exact h
        | cons p restP =>
          simp only
          rw [h, List.range_succ, List.map_append]
          rfl
    simpa [dispatchRun, List.foldl_cons] using ih (dispatchStep n ok i st) hstep

/-- Claim C7 (confirmed): with a non-empty key pool of size `n`, the
dispatch trace of a batch run — under any interleaving of the chunk's
concurrently processed items — is exactly counter values `0, 1, 2, …`
paired with credential indices `counter % n`: the k-th dispatched task
uses credential index `(k-1) % n` (0-based: entry `k` uses `k % n`),
every dispatched task receives a distinct counter value, and the counter
is shared across all items and platforms of the run. -/
theorem credential_rotation_round_robin (apiKeysLen : Nat) (ok : Nat → Platform → Bool)
    (sched : List Nat) (items : List (List Platform)) (_hpool : 0 < apiKeysLen) :
    (dispatchRun apiKeysLen ok sched (initDispatchState items)).trace
      = (List.range
          (dispatchRun apiKeysLen ok sched (initDispatchState items)).trace.length).map
        (fun k => (k, k % apiKeysLen))
    ∧ ((dispatchRun apiKeysLen ok sched (initDispatchState items)).trace.map
        Prod.fst).Nodup
    ∧ ∀ pr ∈ (dispatchRun apiKeysLen ok sched (initDispatchState items)).trace,
        pr.2 = pr.1 % apiKeysLen := by
  have hinv := dispatchRun_inv apiKeysLen ok sched (initDispatchState items)
    (by simp [initDispatchState])
  have hlen : (dispatchRun apiKeysLen ok sched (initDispatchState items)).trace.length
      = (dispatchRun apiKeysLen ok sched (initDispatchState items)).keyIndex := by
    rw [hinv, List.length_map, List.length_range]
  refine ⟨by rw [hlen]; exact hinv, ?_, ?_⟩
  · rw [hinv, List.map_map]
    have : (Prod.fst ∘ fun k => ((k, k % apiKeysLen) : Nat × Nat)) = id := rfl
    rw [this, List.map_id]
    exact List.nodup_range _
  · intro pr hpr
    rw [hinv] at hpr
    rcases List.mem_map.mp hpr with ⟨k, _, rfl⟩
    rfl

/-- The 12-task scenario: four items, three platforms each, dispatched in
an interleaved order. -/
def sched12 : List Nat := [0, 1, 2, 3, 0, 1, 2, 3, 0, 1, 2, 3]

/-- Four work items each owing all three platforms. -/
def items4 : List (List Platform) :=
  [[Platform.adobe, Platform.shutterstock, Platform.freepik],
   [Platform.adobe, Platform.shutterstock, Platform.freepik],
   [Platform.adobe, Platform.shutterstock, Platform.freepik],
   [Platform.adobe, Platform.shutterstock, Platform.freepik]]

/-- All generations succeed. -/
def okAll : Nat → Platform → Bool := fun _ _ => true

/-- Witness for `credential_rotation_round_robin`: 12 dispatched tasks
against a 3-key pool draw credential indices
`0,1,2,0,1,2,0,1,2,0,1,2`. -/
theorem credential_rotation_round_robin_witness :
    (0 : Nat) < 3
    ∧ (dispatchRun 3 okAll sched12 (initDispatchState items4)).trace
        = (List.range
            (dispatchRun 3 okAll sched12 (initDispatchState items4)).trace.length).map
          (fun k => (k, k % 3))
    ∧ (dispatchRun 3 okAll sched12 (initDispatchState items4)).trace.map Prod.snd
        = [0, 1, 2, 0, 1, 2, 0, 1, 2, 0, 1, 2] :=
  ⟨by decide,
   (credential_rotation_round_robin 3 okAll sched12 items4 (by decide)).1,
   by decide⟩

/-! ## Claim C8 -/

theorem retryGo_spec {α : Type} (attempt : Nat → Except ApiError α)
    (isRetryable : ApiError → Bool) (base : Nat) (jitter : Nat → Nat) :
    ∀ (fuel i : Nat), 0 < fuel → i + fuel = 5 →
      ((retryGo attempt isRetryable base jitter 5 i fuel).1.isSome = true)
      ∧ ((retryGo attempt isRetryable base jitter 5 i fuel).2.length + 1 ≤ fuel)
      ∧ (∀ pr ∈ (retryGo attempt isRetryable base jitter 5 i fuel).2,
          ∃ e, attempt pr.1 = Except.error e ∧ isRetryable e = true
            ∧ pr.2 = base * 2 ^ pr.1 + jitter pr.1)
      ∧ (∀ e, (retryGo attempt isRetryable base jitter 5 i fuel).1
            = some (Except.error e) →
          ∃ j, i ≤ j ∧ j ≤ 4 ∧ attempt j = Except.error e
            ∧ (isRetryable e = false ∨ j = 4))
      ∧ (∀ a, (retryGo attempt isRetryable base jitter 5 i fuel).1
            = some (Except.ok a) →
          ∃ j, attempt j = Except.ok a) := by
  intro fuel
  induction fuel with
  | zero => intro i h0 _; omega
  | succ f ih =>
    intro i _ hsum
    simp only [retryGo]
    cases ha : attempt i with
    | ok a =>
      dsimp only
      refine ⟨rfl, by simp, by simp, ?_, ?_⟩
      · intro e he
        simp at he
      · intro a0 ha0
        simp only [Option.some.injEq, Except.ok.injEq] at ha0
        exact ⟨i, ha0 ▸ ha⟩
    | error e =>
      dsimp only
      by_cases hcond : (isRetryable e && decide (i < 5 - 1)) = true
      · rw [if_pos hcond]
        simp only [Bool.and_eq_true, decide_eq_true_eq] at hcond
        obtain ⟨hretry, hlt⟩ := hcond
        have hf : 0 < f := by omega
        obtain ⟨ih1, ih2, ih3, ih4, ih5⟩ := ih (i + 1) hf (by omega)
        refine ⟨ih1, by simpa using ih2, ?_, ?_, ih5⟩
        · intro pr hpr
          rcases List.mem_cons.mp hpr with hpr | hpr
          · subst hpr
            exact ⟨e, ha, hretry, rfl⟩
          · exact ih3 pr hpr
        · intro e0 he0
          obtain ⟨j, hj1, hj2, hj3, hj4⟩ := ih4 e0 he0
          exact ⟨j, by omega, hj2, hj3, hj4⟩
      · rw [if_neg hcond]
        refine ⟨rfl, by simp, by simp, ?_, ?_⟩
        · intro e0 he0
          simp only [Option.some.injEq, Except.error.injEq] at he0
          subst he0
          simp only [Bool.and_eq_true, decide_eq_true_eq, not_and] at hcond
          refine ⟨i, le_refl i, by omega, ha, ?_⟩
          cases hb : isRetryable e with
          | false => exact Or.inl rfl
          | true =>
            right
            have := hcond hb
            omega
        · intro a ha0
          simp at ha0

/-- Claim C8 (confirmed): each provider's retry wrapper makes at most 5
attempts; it waits `base × 2^i + jitter` (jitter in `[0, 1000)` ms)
after retried attempt `i`, with base 2000 ms for Gemini and Mistral and
the larger 3000 ms for Groq; every retried attempt's failure satisfies
that provider's transient classifier; and the final error, whether
non-transient or the attempt-ceiling failure, is an attempt's error
propagated unchanged. -/
theorem retry_wrapper_bounded_backoff {α : Type} (attempt : Nat → Except ApiError α)
    (jitter : Nat → Nat) (hj : ∀ i, jitter i < 1000) :
    ((generateContentWithRetry attempt jitter).1.isSome = true
      ∧ (generateContentWithRetry attempt jitter).2.length + 1 ≤ 5
      ∧ (∀ pr ∈ (generateContentWithRetry attempt jitter).2,
          ∃ e, attempt pr.1 = Except.error e ∧ isRetryableGemini e = true
            ∧ 2000 * 2 ^ pr.1 ≤ pr.2 ∧ pr.2 < 2000 * 2 ^ pr.1 + 1000)
      ∧ (∀ e, (generateContentWithRetry attempt jitter).1 = some (Except.error e) →
          ∃ j, j ≤ 4 ∧ attempt j = Except.error e
            ∧ (isRetryableGemini e = false ∨ j = 4)))
    ∧ ((callMistralApi attempt jitter).1.isSome = true
      ∧ (callMistralApi attempt jitter).2.length + 1 ≤ 5
      ∧ (∀ pr ∈ (callMistralApi attempt jitter).2,
          ∃ e, attempt pr.1 = Except.error e ∧ isRetryableMistral e = true
            ∧ 2000 * 2 ^ pr.1 ≤ pr.2 ∧ pr.2 < 2000 * 2 ^ pr.1 + 1000)
      ∧ (∀ e, (callMistralApi attempt jitter).1 = some (Except.error e) →
          ∃ j, j ≤ 4 ∧ attempt j = Except.error e
            ∧ (isRetryableMistral e = false ∨ j = 4)))
    ∧ ((callGroqApi attempt jitter).1.isSome = true
      ∧ (callGroqApi attempt jitter).2.length + 1 ≤ 5
      ∧ (∀ pr ∈ (callGroqApi attempt jitter).2,
          ∃ e, attempt pr.1 = Except.error e ∧ isRetryableGroq e = true
            ∧ 3000 * 2 ^ pr.1 ≤ pr.2 ∧ pr.2 < 3000 * 2 ^ pr.1 + 1000)
      ∧ (∀ e, (callGroqApi attempt jitter).1 = some (Except.error e) →
          ∃ j, j ≤ 4 ∧ attempt j = Except.error e
            ∧ (isRetryableGroq e = false ∨ j = 4))) := by
  refine ⟨?_, ?_, ?_⟩
  · obtain ⟨h1, h2, h3, h4, _⟩ := retryGo_spec attempt isRetryableGemini 2000 jitter 5 0
      (by omega) (by omega)
    refine ⟨h1, h2, ?_, ?_⟩
    · intro pr hpr
      obtain ⟨e, he1, he2, he3⟩ := h3 pr hpr
      exact ⟨e, he1, he2, by omega, by have := hj pr.1; omega⟩
    · intro e he
      obtain ⟨j, _, hj2, hj3, hj4⟩ := h4 e he
      exact ⟨j, hj2, hj3, hj4⟩
  · obtain ⟨h1, h2, h3, h4, _⟩ := retryGo_spec attempt isRetryableMistral 2000 jitter 5 0
      (by omega) (by omega)
    refine ⟨h1, h2, ?_, ?_⟩
    · intro pr hpr
      obtain ⟨e, he1, he2, he3⟩ := h3 pr hpr
      exact ⟨e, he1, he2, by omega, by have := hj pr.1; omega⟩
    · intro e he
      obtain ⟨j, _, hj2, hj3, hj4⟩ := h4 e he
      exact ⟨j, hj2, hj3, hj4⟩
  · obtain ⟨h1, h2, h3, h4, _⟩ := retryGo_spec attempt isRetryableGroq 3000 jitter 5 0
      (by omega) (by omega)
    refine ⟨h1, h2, ?_, ?_⟩
    · intro pr hpr
      obtain ⟨e, he1, he2, he3⟩ := h3 pr hpr
      exact ⟨e, he1, he2, by omega, by have := hj pr.1; omega⟩
    · intro e he
      obtain ⟨j, _, hj2, hj3, hj4⟩ := h4 e he
      exact ⟨j, hj2, hj3, hj4⟩

/-- An attempt oracle that always fails with a 429 rate-limit error. -/
def attemptAlways429 : Nat → Except ApiError Unit :=
  fun _ => Except.error { status := some 429, message := "429 Too Many Requests" }

/-- A fixed 500 ms jitter draw. -/
def jitterHalf : Nat → Nat := fun _ => 500

/-- Witness for `retry_wrapper_bounded_backoff`: a persistent 429 makes
the Gemini wrapper retry four times with delays 2500, 4500, 8500,
16500 ms and then surface the last 429 unchanged. -/
theorem retry_wrapper_bounded_backoff_witness :
    (generateContentWithRetry attemptAlways429 jitterHalf).2.length + 1 ≤ 5
    ∧ (generateContentWithRetry attemptAlways429 jitterHalf).2
        = [(0, 2500), (1, 4500), (2, 8500), (3, 16500)]
    ∧ (generateContentWithRetry attemptAlways429 jitterHalf).1
        = some (Except.error { status := some 429, message := "429 Too Many Requests" }) :=
  ⟨(retry_wrapper_bounded_backoff attemptAlways429 jitterHalf
      (fun _ => by show (500 : Nat) < 1000; decide)).1.2.1,
   by decide, by decide⟩

end ProMetadata
